import Mathlib

/-!
Shallow embedding of the net-pathfinder library (Rust sources `src/lib.rs`,
`src/net.rs`, `src/node.rs`, `src/path.rs`).

The library is generic over a point type `T` whose identity is given by an
identifier of type `I` (Rust trait `Point { type Identifier; fn id(&self) -> Identifier }`
with `PartialEq` on identifiers).  We embed this as an explicit identifier
function `pid : T → I` together with `[DecidableEq I]`.

Rust `panic!` is a fatal abort distinct from returning `Err`, so the search
result type has a dedicated `panicked` constructor.  The Rust recursion has no
fuel; the embedding threads a fuel counter that is consumed exactly at the
recursive call sites, with a dedicated `outOfFuel` constructor, and we prove
separately that any fuel larger than the number of nodes is never exhausted.
-/

namespace NetPF

variable {T I : Type} [DecidableEq I]

/-- Rust `Point::is`: identity comparison of two points by their identifiers
(`&self.id() == &other_point.id()`). -/
def is (pid : T → I) (a b : T) : Bool := decide (pid a = pid b)

/-- Rust `node::Connection`: a directed edge record holding the target point
(the Rust field is called `to`, a reserved token in Lean, so the field here uses
the spec's name `target` for the same datum). -/
structure Connection (T : Type) where
  target : T
deriving DecidableEq

/-- Rust `Connection::is_connected_to`: true iff the connection targets `p`. -/
def Connection.is_connected_to (pid : T → I) (c : Connection T) (p : T) : Bool :=
  is pid c.target p

/-- Rust `node::Node`: a point plus its ordered list of connections. -/
structure Node (T : Type) where
  point : T
  connections : List (Connection T)
deriving DecidableEq

/-- Rust `Node::point_is`: identity check against the node's subject point. -/
def Node.point_is (pid : T → I) (n : Node T) (p : T) : Bool :=
  is pid n.point p

/-- Rust `Node::is_connected_to`: true iff any connection targets `p`. -/
def Node.is_connected_to (pid : T → I) (n : Node T) (p : T) : Bool :=
  n.connections.any (fun c => c.is_connected_to pid p)

/-- Rust `path::Path`: an ordered sequence of points. -/
structure Path (T : Type) where
  points : List T
deriving DecidableEq

/-- Rust `Path::push`: append a point at the end. -/
def Path.push (path : Path T) (p : T) : Path T :=
  ⟨path.points ++ [p]⟩

/-- Rust `Path::do_not_contains`: true iff no point of the path has the same
identifier as `p`. -/
def Path.do_not_contains (pid : T → I) (path : Path T) (p : T) : Bool :=
  ! path.points.any (fun point_in_path => is pid point_in_path p)

/-- Rust `Path::ends_with`: true iff the last point (if any) has the same
identifier as `p`; false on an empty path. -/
def Path.ends_with (pid : T → I) (path : Path T) (p : T) : Bool :=
  match path.points.getLast? with
  | some last_point => is pid last_point p
  | none => false

/-- Modelled from the spec: `Path::with_point_at_the_end` is called by
`Net::push_all_paths_following` (src/net.rs) but its definition is missing from
the sources under src/.  Per the spec (§4.5 step d) the search must "extend a
*copy* of `path_so_far` with the candidate", so it returns a copy of the path
with the given point appended at the end. -/
def Path.with_point_at_the_end (path : Path T) (p : T) : Path T :=
  ⟨path.points ++ [p]⟩

/-- Rust `Node::connected_points_not_in_path`: in insertion order, every
connection target whose identifier is absent from `path`; `none` if no such
target exists. -/
def Node.connected_points_not_in_path (pid : T → I) (n : Node T) (path : Path T) :
    Option (List T) :=
  let points := (n.connections.filter (fun c => path.do_not_contains pid c.target)).map
    (fun c => c.target)
  if points.isEmpty then none else some points

/-- Rust `path::PathBuilder`. -/
structure PathBuilder (T : Type) where
  points : Option (List T)
deriving DecidableEq

/-- Rust `PathBuilder::new`. -/
def PathBuilder.new : PathBuilder T := ⟨none⟩

/-- Rust `PathBuilder::points` (named `set_points` here because the Lean field
is already called `points`): in both match arms of the source the accumulated
list is replaced by the supplied one. -/
def PathBuilder.set_points (_b : PathBuilder T) (points : List T) : PathBuilder T :=
  ⟨some points⟩

/-- Rust `PathBuilder::point`: append one point. -/
def PathBuilder.point (b : PathBuilder T) (p : T) : PathBuilder T :=
  match b.points with
  | some ps => ⟨some (ps ++ [p])⟩
  | none => ⟨some [p]⟩

/-- Rust `PathBuilder::build`. -/
def PathBuilder.build (b : PathBuilder T) : Except String (Path T) :=
  match b.points with
  | some ps => .ok ⟨ps⟩
  | none => .error "Should set at least one point for the path"

/-- Decidable equality for `Except`, used only to evaluate builder results on
concrete inputs. -/
instance {E A : Type} [DecidableEq E] [DecidableEq A] : DecidableEq (Except E A)
  | .ok a, .ok b =>
    if h : a = b then .isTrue (by rw [h]) else .isFalse (fun hh => h (Except.ok.inj hh))
  | .ok _, .error _ => .isFalse (fun hh => Except.noConfusion hh)
  | .error _, .ok _ => .isFalse (fun hh => Except.noConfusion hh)
  | .error e, .error f =>
    if h : e = f then .isTrue (by rw [h]) else .isFalse (fun hh => h (Except.error.inj hh))

/-- Rust `node::NodeBuilder`. -/
structure NodeBuilder (T : Type) where
  point : Option T
  connected_points : Option (List T)
deriving DecidableEq

/-- Rust `NodeBuilder::new`. -/
def NodeBuilder.new : NodeBuilder T := ⟨none, none⟩

/-- Rust `NodeBuilder::point` (named `set_point` here because the Lean field is
already called `point`): sets/overwrites the subject point. -/
def NodeBuilder.set_point (b : NodeBuilder T) (p : T) : NodeBuilder T :=
  { b with point := some p }

/-- Rust `NodeBuilder::node_is_connected_to`: true iff some accumulated
connected point has the same identifier as `p`. -/
def NodeBuilder.node_is_connected_to (pid : T → I) (b : NodeBuilder T) (p : T) : Bool :=
  match b.connected_points with
  | none => false
  | some connections => connections.any (fun connected_point => is pid connected_point p)

/-- Rust `NodeBuilder::connected_point`: appends `p` unless a connection to a
same-identifier point already exists (silent no-op in that case). -/
def NodeBuilder.connected_point (pid : T → I) (b : NodeBuilder T) (p : T) : NodeBuilder T :=
  if b.node_is_connected_to pid p then b
  else
    match b.connected_points with
    | some c => { b with connected_points := some (c ++ [p]) }
    | none => { b with connected_points := some [p] }

/-- Rust `NodeBuilder::connected_points` (named `add_connected_points` here
because the Lean field is already called `connected_points`): applies
`connected_point` for each element in order. -/
def NodeBuilder.add_connected_points (pid : T → I) (b : NodeBuilder T) (ps : List T) :
    NodeBuilder T :=
  ps.foldl (fun acc p => acc.connected_point pid p) b

/-- Rust `NodeBuilder::build`. -/
def NodeBuilder.build (pid : T → I) (b : NodeBuilder T) : Except String (Node T) :=
  match b.point with
  | none => .error "Should specify a point"
  | some p =>
    if b.node_is_connected_to pid p then .error "Point cannot be connected to itself"
    else
      .ok { point := p
            connections := (b.connected_points.getD []).map
              (fun connected_point => ⟨connected_point⟩) }

/-- Rust `net::NetErrors` (the `PointNotFound` payload is the identifier itself
rather than its rendered string; `Identifier : ToString` in the source only
serves this rendering). -/
inductive NetErrors (I : Type) where
  | PointNotFound : I → NetErrors I
  | NoPathFound : NetErrors I
  | PathCannotBeBuilt : String → NetErrors I
deriving DecidableEq

/-- Outcome of the recursive search.  `ok`/`err` mirror Rust's
`Result<Vec<Path>, NetErrors>`; `panicked` is a Rust `panic!` (it records the
error value the panic was raised with); `outOfFuel` is an artefact of the
embedding's fuel counter and never occurs for sufficiently large fuel. -/
inductive SearchResult (T I : Type) where
  | ok : List (Path T) → SearchResult T I
  | err : NetErrors I → SearchResult T I
  | panicked : NetErrors I → SearchResult T I
  | outOfFuel : SearchResult T I
deriving DecidableEq

/-- Rust `net::Net`: the collection of nodes. -/
structure Net (T : Type) where
  nodes : List (Node T)
deriving DecidableEq

/-- Rust `Net::find_node_or_throws`: first node whose point has the given
identifier, or `PointNotFound` carrying that identifier. -/
def Net.find_node_or_throws (pid : T → I) (net : Net T) (point : T) :
    Except (NetErrors I) (Node T) :=
  match net.nodes.find? (fun node => node.point_is pid point) with
  | some node => .ok node
  | none => .error (.PointNotFound (pid point))

/-- Rust `Net::push_all_paths_following`, iterated over the followable points
(the `for_each` of the source).  `search` is the recursive call
`find_paths_not_crossing_previous_path` with the destination already fixed;
`paths` is the accumulator vector being pushed into.  A failing node lookup is
Rust `find_node_or_panic`; a non-`NoPathFound` error from the recursive call is
re-raised by `panic_if_error_is_not_path_not_found`; both abort the whole
iteration, as an unwinding panic does. -/
def Net.push_all_paths_following (pid : T → I) (net : Net T)
    (search : Node T → Path T → SearchResult T I) (previous_path : Path T) :
    List T → List (Path T) → SearchResult T I
  | [], paths => .ok paths
  | starting_point :: rest, paths =>
    match net.find_node_or_throws pid starting_point with
    | .error e => .panicked e
    | .ok origin_node =>
      match search origin_node (previous_path.with_point_at_the_end starting_point) with
      | .ok paths_found =>
        net.push_all_paths_following pid search previous_path rest (paths ++ paths_found)
      | .err .NoPathFound =>
        net.push_all_paths_following pid search previous_path rest paths
      | .err e => .panicked e
      | .panicked e => .panicked e
      | .outOfFuel => .outOfFuel

/-- Rust `Net::find_paths_not_crossing_previous_path`.  The fuel counter is
checked only where the source recurses, so the completed-path check and the
dead-end check behave exactly as in the source at every fuel. -/
def Net.find_paths_not_crossing_previous_path (pid : T → I) (net : Net T) :
    Nat → Node T → T → Path T → SearchResult T I
  | fuel, from_node, to_point, previous_path =>
    if previous_path.ends_with pid to_point then .ok [previous_path]
    else
      match from_node.connected_points_not_in_path pid previous_path with
      | none => .err .NoPathFound
      | some followable_points =>
        match fuel with
        | 0 => .outOfFuel
        | fuel' + 1 =>
          match net.push_all_paths_following pid
              (fun n path => net.find_paths_not_crossing_previous_path pid fuel' n to_point path)
              previous_path followable_points [] with
          | .ok paths => if paths.isEmpty then .err .NoPathFound else .ok paths
          | r => r

/-- Rust `Net::find_paths`. -/
def Net.find_paths (pid : T → I) (net : Net T) (from_point to_point : T) (fuel : Nat) :
    SearchResult T I :=
  match net.find_node_or_throws pid from_point with
  | .error e => .err e
  | .ok node_from =>
    match ((PathBuilder.new : PathBuilder T).point from_point).build with
    | .ok beginning_path =>
      net.find_paths_not_crossing_previous_path pid fuel node_from to_point beginning_path
    | .error message => .err (.PathCannotBeBuilt message)

/-! ### Predicates used by the statements -/

/-- No two points of the list share an identifier. -/
def NodupIds (pid : T → I) (l : List T) : Prop :=
  l.Pairwise (fun a b => pid a ≠ pid b)

/-- Some node of the net has subject point `p` and a connection targeting `q`. -/
def ConnectedStep (pid : T → I) (net : Net T) (p q : T) : Prop :=
  ∃ n ∈ net.nodes, n.point_is pid p = true ∧ n.is_connected_to pid q = true

/-- The point `p` has a corresponding node in the net. -/
def HasNodeFor (pid : T → I) (net : Net T) (p : T) : Prop :=
  ∃ n ∈ net.nodes, n.point_is pid p = true

/-- Every connection of every node targets a point that has a node: the net has
no structural inconsistency in the sense of spec §4.5 step 3. -/
def ClosedNet (pid : T → I) (net : Net T) : Prop :=
  ∀ n ∈ net.nodes, ∀ c ∈ n.connections, HasNodeFor pid net c.target

/-- A list of points witnessing a simple route between `a` and `b`: it starts at
a point identified with `a`, ends at a point identified with `b`, repeats no
identifier, and each consecutive pair is a real connection of some node. -/
def ConnectsSimply (pid : T → I) (net : Net T) (a b : T) (l : List T) : Prop :=
  (∃ p, l.head? = some p ∧ is pid p a = true) ∧
  (∃ q, l.getLast? = some q ∧ is pid q b = true) ∧
  NodupIds pid l ∧ List.Chain' (ConnectedStep pid net) l

/-- Number of nodes whose point is not yet on the path; an upper bound on the
remaining recursion depth of the search. -/
def remainingNodes (pid : T → I) (net : Net T) (path : Path T) : Nat :=
  (net.nodes.filter (fun n => path.do_not_contains pid n.point)).length

/-- `NodeBuilder::build` as claim C5 words it: fail with the missing-point
error when no subject point was ever set; fail with the self-connection error
when the subject point was set and some accumulated connection target shares
the subject point's identifier; in every other case succeed with a node holding
the subject point and the accumulated connections. -/
def NodeBuilder.build_spec (pid : T → I) (b : NodeBuilder T) : Except String (Node T) :=
  match b.point with
  | none => .error "Should specify a point"
  | some p =>
    if (b.connected_points.getD []).any (fun connected_point => is pid connected_point p) then
      .error "Point cannot be connected to itself"
    else
      .ok { point := p
            connections := (b.connected_points.getD []).map
              (fun connected_point => ⟨connected_point⟩) }

/-- Builder states reachable from `NodeBuilder::new` through the builder's
public operations. -/
inductive Reached (pid : T → I) : NodeBuilder T → Prop where
  | new : Reached pid NodeBuilder.new
  | set_point (b : NodeBuilder T) (p : T) : Reached pid b → Reached pid (b.set_point p)
  | connected_point (b : NodeBuilder T) (p : T) : Reached pid b →
      Reached pid (b.connected_point pid p)
  | add_connected_points (b : NodeBuilder T) (ps : List T) : Reached pid b →
      Reached pid (b.add_connected_points pid ps)

/-! ### Helper lemmas -/

theorem find_node_or_throws_error (pid : T → I) (net : Net T) (p : T) (e : NetErrors I)
    (h : net.find_node_or_throws pid p = .error e) :
    e = .PointNotFound (pid p) ∧ ∀ n ∈ net.nodes, n.point_is pid p = false := by
  unfold Net.find_node_or_throws at h
  cases hf : net.nodes.find? (fun node => node.point_is pid p) with
  | some n => rw [hf] at h; exact absurd h (by simp)
  | none =>
    rw [hf] at h
    refine ⟨by simpa using h.symm, fun n hn => ?_⟩
    have := List.find?_eq_none.mp hf n hn
    simpa using this

theorem find_node_or_throws_ok (pid : T → I) (net : Net T) (p : T) (n : Node T)
    (h : net.find_node_or_throws pid p = .ok n) :
    n ∈ net.nodes ∧ n.point_is pid p = true := by
  unfold Net.find_node_or_throws at h
  cases hf : net.nodes.find? (fun node => node.point_is pid p) with
  | some m =>
    rw [hf] at h
    have hm : m = n := by simpa using h
    have h1 : m ∈ net.nodes := List.mem_of_find?_eq_some hf
    have h2 := List.find?_some hf
    rw [hm] at h1 h2
    exact ⟨h1, h2⟩
  | none => rw [hf] at h; exact absurd h (by simp)

theorem find_node_or_throws_isOk (pid : T → I) (net : Net T) (p : T)
    (h : HasNodeFor pid net p) :
    ∃ n, net.find_node_or_throws pid p = .ok n := by
  unfold Net.find_node_or_throws
  cases hf : net.nodes.find? (fun node => node.point_is pid p) with
  | some n => exact ⟨n, rfl⟩
  | none =>
    obtain ⟨n, hn, hpt⟩ := h
    exact absurd hpt (by simpa using List.find?_eq_none.mp hf n hn)

theorem find_crossing_unfold (pid : T → I) (net : Net T) (fuel : Nat) (from_node : Node T)
    (to_point : T) (prev : Path T) :
    net.find_paths_not_crossing_previous_path pid fuel from_node to_point prev =
      if prev.ends_with pid to_point then .ok [prev]
      else
        match from_node.connected_points_not_in_path pid prev with
        | none => .err .NoPathFound
        | some followable_points =>
          match fuel with
          | 0 => .outOfFuel
          | fuel' + 1 =>
            match net.push_all_paths_following pid
                (fun n path => net.find_paths_not_crossing_previous_path pid fuel' n to_point path)
                prev followable_points [] with
            | .ok paths => if paths.isEmpty then .err .NoPathFound else .ok paths
            | r => r := by
  conv_lhs => rw [Net.find_paths_not_crossing_previous_path]

theorem push_all_nil (pid : T → I) (net : Net T)
    (search : Node T → Path T → SearchResult T I) (prev : Path T) (acc : List (Path T)) :
    net.push_all_paths_following pid search prev [] acc = .ok acc := rfl

theorem push_all_cons (pid : T → I) (net : Net T)
    (search : Node T → Path T → SearchResult T I) (prev : Path T)
    (p : T) (rest : List T) (acc : List (Path T)) :
    net.push_all_paths_following pid search prev (p :: rest) acc =
      match net.find_node_or_throws pid p with
      | .error e => .panicked e
      | .ok origin_node =>
        match search origin_node (prev.with_point_at_the_end p) with
        | .ok paths_found =>
          net.push_all_paths_following pid search prev rest (acc ++ paths_found)
        | .err .NoPathFound => net.push_all_paths_following pid search prev rest acc
        | .err e => .panicked e
        | .panicked e => .panicked e
        | .outOfFuel => .outOfFuel := rfl

/-- `push_all_paths_following` never produces a plain `err`: per-branch
failures are either absorbed or re-raised as panics. -/
theorem push_all_ne_err (pid : T → I) (net : Net T)
    (search : Node T → Path T → SearchResult T I) (prev : Path T) :
    ∀ (cs : List T) (acc : List (Path T)) (e : NetErrors I),
      net.push_all_paths_following pid search prev cs acc ≠ .err e := by
  intro cs
  induction cs with
  | nil => intro acc e h; rw [push_all_nil] at h; exact SearchResult.noConfusion h
  | cons p rest ih =>
    intro acc e h
    rw [push_all_cons] at h
    split at h
    · exact SearchResult.noConfusion h
    · split at h
      · exact ih _ _ h
      · exact ih _ _ h
      · exact SearchResult.noConfusion h
      · exact SearchResult.noConfusion h
      · exact SearchResult.noConfusion h

/-- The only plain error the recursive search ever returns is `NoPathFound`. -/
theorem find_crossing_err (pid : T → I) (net : Net T) (fuel : Nat) (from_node : Node T)
    (to_point : T) (prev : Path T) (e : NetErrors I)
    (h : net.find_paths_not_crossing_previous_path pid fuel from_node to_point prev = .err e) :
    e = .NoPathFound := by
  rw [find_crossing_unfold] at h
  split at h
  · exact SearchResult.noConfusion h
  · split at h
    · exact (SearchResult.err.inj h).symm
    · split at h
      · exact SearchResult.noConfusion h
      · split at h
        · split at h
          · exact (SearchResult.err.inj h).symm
          · exact SearchResult.noConfusion h
        · exact absurd h (push_all_ne_err pid net _ prev _ [] e)

/-! ### Claim C5 -/

/-- C5: `NodeBuilder::build()` fails with the missing-point error if no subject
point was ever set; fails with the self-connection error if the subject point
was set and any accumulated connection's target shares the subject point's
identifier; and in every other case returns Ok with a Node holding the subject
point and the accumulated connections.  Stated as: `build` coincides with
`build_spec`, the direct transliteration of that case analysis. -/
theorem C5_node_builder_build_matches_spec (pid : T → I) (b : NodeBuilder T) :
    NodeBuilder.build pid b = NodeBuilder.build_spec pid b := by
  obtain ⟨pt, cps⟩ := b
  cases pt <;> cases cps <;>
    simp [NodeBuilder.build, NodeBuilder.build_spec, NodeBuilder.node_is_connected_to]

/-! ### Claim C7 -/

/-- C7 counterexample: supplying only a batch containing zero points does not
count as "no point ever added" — `build()` succeeds with an empty path instead
of failing with the empty-path error. -/
theorem C7_counterexample_empty_batch_builds :
    ((PathBuilder.new : PathBuilder Nat).set_points []).build = Except.ok ⟨[]⟩ ∧
    ((PathBuilder.new : PathBuilder Nat).set_points []).build ≠
      Except.error "Should set at least one point for the path" :=
  ⟨rfl, by decide⟩

/-- C7 amended: `PathBuilder::build()` fails with the empty-path error iff no
builder operation was ever applied (the accumulated list is still absent); any
batch call — even with zero points — installs a list, after which `build()`
returns Ok with exactly that list; whenever at least one point was added,
`build()` returns Ok. -/
theorem C7_path_builder_build_fails_iff_no_operation (b : PathBuilder T) :
    (b.build = Except.error "Should set at least one point for the path" ↔ b.points = none) ∧
    ((PathBuilder.new : PathBuilder T).points = none) ∧
    (∀ p : T, (b.point p).points = some (b.points.getD [] ++ [p])) ∧
    (∀ l : List T, (b.set_points l).points = some l) ∧
    (∀ l : List T, b.points = some l → b.build = Except.ok ⟨l⟩) := by
  obtain ⟨pts⟩ := b
  cases pts <;>
    simp [PathBuilder.build, PathBuilder.point, PathBuilder.set_points, PathBuilder.new]

/-- Witness for the amended C7 at a concrete builder state. -/
theorem C7_witness : (⟨some [5]⟩ : PathBuilder Nat).build = Except.ok ⟨[5]⟩ :=
  (C7_path_builder_build_fails_iff_no_operation (⟨some [5]⟩ : PathBuilder Nat)).2.2.2.2 [5] rfl

/-! ### Claim C8 -/

/-- C8 counterexample: a batch call does not append after previously added
points — after `point 0` then a batch `[1]`, the built path is `[1]`, not
`[0, 1]`. -/
theorem C8_counterexample_batch_replaces :
    ((((PathBuilder.new : PathBuilder Nat).point 0).set_points [1]).build = Except.ok ⟨[1]⟩) ∧
    ((((PathBuilder.new : PathBuilder Nat).point 0).set_points [1]).build ≠
      Except.ok ⟨[0, 1]⟩) :=
  ⟨rfl, by decide⟩

/-- C8 amended: the single-point operation appends in call order, but the batch
operation replaces the whole accumulated list with the supplied batch; the
built Path therefore contains the last batch supplied (or all points when no
batch was called) followed, in order, by every single point added after it. -/
theorem C8_path_builder_point_appends_batch_replaces (b : PathBuilder T) (p : T)
    (l : List T) :
    ((b.point p).points = some (b.points.getD [] ++ [p])) ∧
    ((b.set_points l).points = some l) ∧
    (∀ m : List T, b.points = some m → b.build = Except.ok ⟨m⟩) := by
  obtain ⟨pts⟩ := b
  cases pts <;> simp [PathBuilder.point, PathBuilder.set_points, PathBuilder.build]

/-- Witness for the amended C8 at a concrete builder state. -/
theorem C8_witness : (⟨some [7, 8]⟩ : PathBuilder Nat).build = Except.ok ⟨[7, 8]⟩ :=
  (C8_path_builder_point_appends_batch_replaces
    (⟨some [7, 8]⟩ : PathBuilder Nat) 0 []).2.2 [7, 8] rfl

/-! ### Claim C9 -/

/-- C9: when `from` has a corresponding node, the internal construction of the
initial one-point path cannot fail, so `find_paths` never returns the
`PathCannotBeBuilt` error. -/
theorem C9_find_paths_never_path_cannot_be_built (pid : T → I) (net : Net T)
    (from_point to_point : T) (fuel : Nat) (message : String)
    (h : HasNodeFor pid net from_point) :
    Net.find_paths pid net from_point to_point fuel ≠
      .err (.PathCannotBeBuilt message) := by
  intro hcontra
  obtain ⟨n, hok⟩ := find_node_or_throws_isOk pid net from_point h
  unfold Net.find_paths at hcontra
  rw [hok] at hcontra
  dsimp only [PathBuilder.new, PathBuilder.point, PathBuilder.build] at hcontra
  exact NetErrors.noConfusion
    (find_crossing_err pid net fuel n to_point ⟨[from_point]⟩ _ hcontra)

/-- Witness for C9 at a concrete net. -/
theorem C9_witness :
    Net.find_paths (fun x : Nat => x) ⟨[⟨0, []⟩]⟩ 0 1 3 ≠
      SearchResult.err (NetErrors.PathCannotBeBuilt
        "Should set at least one point for the path") :=
  C9_find_paths_never_path_cannot_be_built (fun x : Nat => x) ⟨[⟨0, []⟩]⟩ 0 1 3 _
    ⟨⟨0, []⟩, by simp, rfl⟩

/-! ### Claim C10 -/

/-- C10: for every point `p` with a node in the net, `find_paths(p, p)` returns
Ok with exactly one path whose only element is `p`: the destination check on
the seeded path precedes any neighbour exploration. -/
theorem C10_self_search_returns_single_point_path (pid : T → I) (net : Net T) (p : T)
    (fuel : Nat) (h : HasNodeFor pid net p) :
    Net.find_paths pid net p p fuel = .ok [⟨[p]⟩] := by
  obtain ⟨n, hok⟩ := find_node_or_throws_isOk pid net p h
  unfold Net.find_paths
  rw [hok]
  dsimp only [PathBuilder.new, PathBuilder.point, PathBuilder.build]
  rw [find_crossing_unfold]
  have hend : (⟨[p]⟩ : Path T).ends_with pid p = true := by
    simp [Path.ends_with, is]
  simp [hend]

/-- Witness for C10 at a concrete net (an isolated node, zero fuel). -/
theorem C10_witness :
    Net.find_paths (fun x : Nat => x) ⟨[⟨0, []⟩, ⟨1, []⟩]⟩ 1 1 0 =
      SearchResult.ok [⟨[1]⟩] :=
  C10_self_search_returns_single_point_path (fun x : Nat => x) ⟨[⟨0, []⟩, ⟨1, []⟩]⟩ 1 0
    ⟨⟨1, []⟩, by simp, rfl⟩

/-! ### Shape lemmas for the recursive search -/

theorem find_crossing_done (pid : T → I) (net : Net T) (fuel : Nat) (from_node : Node T)
    (to_point : T) (prev : Path T) (hend : prev.ends_with pid to_point = true) :
    net.find_paths_not_crossing_previous_path pid fuel from_node to_point prev =
      .ok [prev] := by
  rw [find_crossing_unfold]
  simp [hend]

theorem find_crossing_deadend (pid : T → I) (net : Net T) (fuel : Nat) (from_node : Node T)
    (to_point : T) (prev : Path T) (hend : prev.ends_with pid to_point = false)
    (hfs : from_node.connected_points_not_in_path pid prev = none) :
    net.find_paths_not_crossing_previous_path pid fuel from_node to_point prev =
      .err .NoPathFound := by
  rw [find_crossing_unfold]
  simp [hend, hfs]

theorem find_crossing_zero (pid : T → I) (net : Net T) (from_node : Node T)
    (to_point : T) (prev : Path T) (hend : prev.ends_with pid to_point = false)
    (fs : List T) (hfs : from_node.connected_points_not_in_path pid prev = some fs) :
    net.find_paths_not_crossing_previous_path pid 0 from_node to_point prev =
      .outOfFuel := by
  rw [find_crossing_unfold]
  simp [hend, hfs]

theorem find_crossing_succ (pid : T → I) (net : Net T) (fuel : Nat) (from_node : Node T)
    (to_point : T) (prev : Path T) (hend : prev.ends_with pid to_point = false)
    (fs : List T) (hfs : from_node.connected_points_not_in_path pid prev = some fs) :
    net.find_paths_not_crossing_previous_path pid (fuel + 1) from_node to_point prev =
      match net.push_all_paths_following pid
          (fun n path => net.find_paths_not_crossing_previous_path pid fuel n to_point path)
          prev fs [] with
      | .ok paths => if paths.isEmpty then .err .NoPathFound else .ok paths
      | r => r := by
  conv_lhs => rw [find_crossing_unfold]
  simp [hend, hfs]

/-! ### Helper lemmas on the basic operations -/

theorem do_not_contains_spec (pid : T → I) (path : Path T) (p : T) :
    path.do_not_contains pid p = true ↔ ∀ a ∈ path.points, pid a ≠ pid p := by
  unfold Path.do_not_contains is
  simp

theorem ends_with_spec (pid : T → I) (path : Path T) (p : T) :
    path.ends_with pid p = true ↔
      ∃ lst, path.points.getLast? = some lst ∧ pid lst = pid p := by
  unfold Path.ends_with is
  cases path.points.getLast? <;> simp

theorem with_point_points (path : Path T) (p : T) :
    (path.with_point_at_the_end p).points = path.points ++ [p] := rfl

theorem connected_points_not_in_path_mem (pid : T → I) (from_node : Node T)
    (prev : Path T) (fs : List T)
    (h : from_node.connected_points_not_in_path pid prev = some fs) :
    ∀ p ∈ fs, prev.do_not_contains pid p = true ∧
      from_node.is_connected_to pid p = true := by
  unfold Node.connected_points_not_in_path at h
  simp only [] at h
  split at h
  · exact Option.noConfusion h
  · intro p hp
    rw [← Option.some.inj h] at hp
    obtain ⟨c, hc, hct⟩ := List.mem_map.mp hp
    obtain ⟨hcmem, hcdnc⟩ := List.mem_filter.mp hc
    subst hct
    refine ⟨hcdnc, ?_⟩
    unfold Node.is_connected_to
    exact List.any_eq_true.mpr ⟨c, hcmem, by simp [Connection.is_connected_to, is]⟩

omit [DecidableEq I] in
theorem nodupIds_append_singleton (pid : T → I) {l : List T} {p : T}
    (h : NodupIds pid l) (hp : ∀ a ∈ l, pid a ≠ pid p) : NodupIds pid (l ++ [p]) := by
  unfold NodupIds at *
  rw [List.pairwise_append]
  refine ⟨h, List.pairwise_singleton _ _, fun a ha b hb => ?_⟩
  rw [List.mem_singleton.mp hb]
  exact hp a ha

omit [DecidableEq I] in
theorem chain_append_singleton {R : T → T → Prop} {l : List T} {p lst : T}
    (h : List.Chain' R l) (hlast : l.getLast? = some lst) (hR : R lst p) :
    List.Chain' R (l ++ [p]) := by
  rw [List.chain'_append]
  refine ⟨h, List.chain'_singleton _, fun x hx y hy => ?_⟩
  rw [hlast, Option.mem_some_iff] at hx
  have hy2 : p = y := by simpa using hy
  rw [← hy2, ← hx]
  exact hR

/-! ### Counting lemmas for the termination argument -/

theorem length_filter_le_of_imp {A : Type} (l : List A) (p q : A → Bool)
    (h : ∀ x ∈ l, q x = true → p x = true) :
    (l.filter q).length ≤ (l.filter p).length := by
  induction l with
  | nil => simp
  | cons b l ih =>
    have ih2 := ih (fun x hx => h x (List.mem_cons_of_mem _ hx))
    cases hq : q b
    · cases hp : p b <;> simp [List.filter_cons, hq, hp] <;> omega
    · have hp := h b (List.mem_cons_self _ _) hq
      simp [List.filter_cons, hq, hp]
      omega

theorem length_filter_lt_of_witness {A : Type} (l : List A) (p q : A → Bool)
    (hmono : ∀ x ∈ l, q x = true → p x = true) (a : A) (ha : a ∈ l)
    (hpa : p a = true) (hqa : q a = false) :
    (l.filter q).length < (l.filter p).length := by
  induction l with
  | nil => cases ha
  | cons b l ih =>
    rcases List.mem_cons.mp ha with hab | ha2
    · subst hab
      have hle := length_filter_le_of_imp l p q (fun x hx => hmono x (List.mem_cons_of_mem _ hx))
      simp [List.filter_cons, hqa, hpa]
      omega
    · have ih2 := ih (fun x hx hqx => hmono x (List.mem_cons_of_mem _ hx) hqx) ha2
      cases hq : q b
      · cases hp : p b <;> simp [List.filter_cons, hq, hp] <;> omega
      · have hp := hmono b (List.mem_cons_self _ _) hq
        simp [List.filter_cons, hq, hp]
        omega

/-! ### Soundness of the search (core of C1) -/

/-- Soundness of one candidate-iteration pass, generic in the recursive call:
every path in an `ok` result is either already in the accumulator or a valid
simple extension of `prev` reaching the destination. -/
theorem push_all_ok_sound (pid : T → I) (net : Net T)
    (search : Node T → Path T → SearchResult T I) (to_point : T) (prev : Path T)
    (lst : T) (hlast : prev.points.getLast? = some lst)
    (hnodup : NodupIds pid prev.points)
    (hchain : List.Chain' (ConnectedStep pid net) prev.points)
    (hsearch : ∀ (n : Node T) (path : Path T) (ps : List (Path T)),
      search n path = .ok ps → n ∈ net.nodes → path.ends_with pid n.point = true →
      NodupIds pid path.points → List.Chain' (ConnectedStep pid net) path.points →
      ∀ q ∈ ps, (∃ ext, q.points = path.points ++ ext) ∧
        q.ends_with pid to_point = true ∧ NodupIds pid q.points ∧
        List.Chain' (ConnectedStep pid net) q.points) :
    ∀ (cs : List T) (acc ps : List (Path T)),
      net.push_all_paths_following pid search prev cs acc = .ok ps →
      (∀ p ∈ cs, prev.do_not_contains pid p = true ∧ ConnectedStep pid net lst p) →
      ∀ q ∈ ps, q ∈ acc ∨
        ((∃ ext, q.points = prev.points ++ ext) ∧ q.ends_with pid to_point = true ∧
          NodupIds pid q.points ∧ List.Chain' (ConnectedStep pid net) q.points) := by
  intro cs
  induction cs with
  | nil =>
    intro acc ps h hc q hq
    rw [push_all_nil] at h
    rw [← SearchResult.ok.inj h] at hq
    exact Or.inl hq
  | cons p rest ih =>
    intro acc ps h hc q hq
    have hcrest : ∀ x ∈ rest, prev.do_not_contains pid x = true ∧
        ConnectedStep pid net lst x :=
      fun x hx => hc x (List.mem_cons_of_mem _ hx)
    rw [push_all_cons] at h
    split at h
    · exact SearchResult.noConfusion h
    · rename_i origin_node hfind
      split at h
      · rename_i found hsr
        rcases ih (acc ++ found) ps h hcrest q hq with hacc | hprops
        · rcases List.mem_append.mp hacc with hqa | hqf
          · exact Or.inl hqa
          · obtain ⟨hmem, hpt⟩ := find_node_or_throws_ok pid net p origin_node hfind
            have hdnc := (hc p (List.mem_cons_self _ _)).1
            have hstep := (hc p (List.mem_cons_self _ _)).2
            have hids : ∀ a ∈ prev.points, pid a ≠ pid p :=
              (do_not_contains_spec pid prev p).mp hdnc
            have hpteq : pid origin_node.point = pid p :=
              of_decide_eq_true (show decide (pid origin_node.point = pid p) = true from hpt)
            have hend2 : (prev.with_point_at_the_end p).ends_with pid
                origin_node.point = true := by
              rw [ends_with_spec]
              refine ⟨p, ?_, hpteq.symm⟩
              rw [with_point_points]
              simp
            have hnodup2 : NodupIds pid (prev.with_point_at_the_end p).points := by
              rw [with_point_points]
              exact nodupIds_append_singleton pid hnodup hids
            have hchain2 : List.Chain' (ConnectedStep pid net)
                (prev.with_point_at_the_end p).points := by
              rw [with_point_points]
              exact chain_append_singleton hchain hlast hstep
            obtain ⟨⟨ext, hext⟩, hqe, hqn, hqc⟩ :=
              hsearch origin_node (prev.with_point_at_the_end p) found hsr hmem hend2
                hnodup2 hchain2 q hqf
            refine Or.inr ⟨⟨[p] ++ ext, ?_⟩, hqe, hqn, hqc⟩
            rw [hext, with_point_points, List.append_assoc]
        · exact Or.inr hprops
      · exact ih acc ps h hcrest q hq
      · exact SearchResult.noConfusion h
      · exact SearchResult.noConfusion h
      · exact SearchResult.noConfusion h

/-- Soundness of the recursive search: under the invariant that `prev` is a
simple chained path ending at `from_node`, every path of an `ok` result
extends `prev`, reaches the destination, repeats no identifier, and follows
real connections only. -/
theorem find_crossing_sound (pid : T → I) (net : Net T) :
    ∀ (fuel : Nat) (from_node : Node T) (to_point : T) (prev : Path T)
      (ps : List (Path T)),
      net.find_paths_not_crossing_previous_path pid fuel from_node to_point prev =
        .ok ps →
      from_node ∈ net.nodes → prev.ends_with pid from_node.point = true →
      NodupIds pid prev.points → List.Chain' (ConnectedStep pid net) prev.points →
      ∀ q ∈ ps, (∃ ext, q.points = prev.points ++ ext) ∧
        q.ends_with pid to_point = true ∧ NodupIds pid q.points ∧
        List.Chain' (ConnectedStep pid net) q.points := by
  intro fuel
  induction fuel with
  | zero =>
    intro from_node to_point prev ps h hmem hend hnodup hchain q hq
    cases hendto : prev.ends_with pid to_point with
    | true =>
      rw [find_crossing_done pid net _ _ _ _ hendto] at h
      rw [← SearchResult.ok.inj h] at hq
      rw [List.mem_singleton.mp hq]
      exact ⟨⟨[], (List.append_nil _).symm⟩, hendto, hnodup, hchain⟩
    | false =>
      cases hfs : from_node.connected_points_not_in_path pid prev with
      | none =>
        rw [find_crossing_deadend pid net _ _ _ _ hendto hfs] at h
        exact SearchResult.noConfusion h
      | some fs =>
        rw [find_crossing_zero pid net _ _ _ hendto fs hfs] at h
        exact SearchResult.noConfusion h
  | succ fuel ih =>
    intro from_node to_point prev ps h hmem hend hnodup hchain q hq
    cases hendto : prev.ends_with pid to_point with
    | true =>
      rw [find_crossing_done pid net _ _ _ _ hendto] at h
      rw [← SearchResult.ok.inj h] at hq
      rw [List.mem_singleton.mp hq]
      exact ⟨⟨[], (List.append_nil _).symm⟩, hendto, hnodup, hchain⟩
    | false =>
      cases hfs : from_node.connected_points_not_in_path pid prev with
      | none =>
        rw [find_crossing_deadend pid net _ _ _ _ hendto hfs] at h
        exact SearchResult.noConfusion h
      | some fs =>
        rw [find_crossing_succ pid net fuel _ _ _ hendto fs hfs] at h
        obtain ⟨lst, hlast, hlstid⟩ := (ends_with_spec pid prev from_node.point).mp hend
        have hcs := connected_points_not_in_path_mem pid from_node prev fs hfs
        have hcs2 : ∀ p ∈ fs, prev.do_not_contains pid p = true ∧
            ConnectedStep pid net lst p := by
          intro p hp
          refine ⟨(hcs p hp).1, ⟨from_node, hmem, ?_, (hcs p hp).2⟩⟩
          exact decide_eq_true hlstid.symm
        split at h
        · rename_i paths hpush
          split at h
          · exact SearchResult.noConfusion h
          · obtain rfl : paths = ps := SearchResult.ok.inj h
            rcases push_all_ok_sound pid net _ to_point prev lst hlast hnodup hchain
                (fun n path ps2 hs hn he hnd hch =>
                  ih n to_point path ps2 hs hn he hnd hch)
                fs [] paths hpush hcs2 q hq with habs | hprops
            · cases habs
            · exact hprops
        · rename_i r hne
          exact absurd h (by rename_i hr; intro hcon; exact hne ps hcon)

/-! ### Claim C1 -/

/-- C1: for every net and pair of points `from`/`to` that each have a node, if
`find_paths` returns Ok with a list of paths, then every returned path starts
with `from`, ends with `to` (by identifier), contains no identifier twice, and
for every consecutive pair `(p, q)` some node whose point is `p` has a
connection targeting `q`. -/
theorem C1_find_paths_returns_valid_simple_paths (pid : T → I) (net : Net T)
    (from_point to_point : T) (fuel : Nat) (ps : List (Path T))
    (hfrom : HasNodeFor pid net from_point) (_hto : HasNodeFor pid net to_point)
    (h : Net.find_paths pid net from_point to_point fuel = .ok ps) :
    ∀ q ∈ ps, q.points.head? = some from_point ∧
      q.ends_with pid to_point = true ∧ NodupIds pid q.points ∧
      List.Chain' (ConnectedStep pid net) q.points := by
  intro q hq
  obtain ⟨n, hok⟩ := find_node_or_throws_isOk pid net from_point hfrom
  unfold Net.find_paths at h
  rw [hok] at h
  dsimp only [PathBuilder.new, PathBuilder.point, PathBuilder.build] at h
  obtain ⟨hmem, hpt⟩ := find_node_or_throws_ok pid net from_point n hok
  have hend : (⟨[from_point]⟩ : Path T).ends_with pid n.point = true := by
    rw [ends_with_spec]
    exact ⟨from_point, by simp,
      (of_decide_eq_true (show decide (pid n.point = pid from_point) = true from hpt)).symm⟩
  obtain ⟨⟨ext, hext⟩, hqe, hqn, hqc⟩ :=
    find_crossing_sound pid net fuel n to_point ⟨[from_point]⟩ ps h hmem hend
      (List.pairwise_singleton _ _) (List.chain'_singleton _) q hq
  refine ⟨?_, hqe, hqn, hqc⟩
  rw [hext]
  rfl

/-- Witness for C1 on the two-node net A–B. -/
theorem C1_witness :
    ((⟨[0, 1]⟩ : Path Nat).points.head? = some 0) ∧
    ((⟨[0, 1]⟩ : Path Nat).ends_with (fun x : Nat => x) 1 = true) ∧
    NodupIds (fun x : Nat => x) (⟨[0, 1]⟩ : Path Nat).points ∧
    List.Chain' (ConnectedStep (fun x : Nat => x)
      (⟨[⟨0, [⟨1⟩]⟩, ⟨1, [⟨0⟩]⟩]⟩ : Net Nat)) (⟨[0, 1]⟩ : Path Nat).points :=
  C1_find_paths_returns_valid_simple_paths (fun x : Nat => x)
    (⟨[⟨0, [⟨1⟩]⟩, ⟨1, [⟨0⟩]⟩]⟩ : Net Nat) 0 1 5 [⟨[0, 1]⟩]
    ⟨⟨0, [⟨1⟩]⟩, by simp, rfl⟩ ⟨⟨1, [⟨0⟩]⟩, by simp, rfl⟩ (by decide)
    ⟨[0, 1]⟩ (List.mem_singleton.mpr rfl)

/-! ### Claim C2 -/

/-- C2 counterexample: in the two-node net A–B (A = 0, B = 1) the destination
point 2 has no node, yet `find_paths(0, 2)` returns `NoPathFound`, not
`PointNotFound` — the destination is never looked up. -/
theorem C2_counterexample_missing_to_is_no_path_found :
    Net.find_paths (fun x : Nat => x) (⟨[⟨0, [⟨1⟩]⟩, ⟨1, [⟨0⟩]⟩]⟩ : Net Nat) 0 2 10 =
      SearchResult.err NetErrors.NoPathFound ∧
    Net.find_paths (fun x : Nat => x) (⟨[⟨0, [⟨1⟩]⟩, ⟨1, [⟨0⟩]⟩]⟩ : Net Nat) 0 2 10 ≠
      SearchResult.err (NetErrors.PointNotFound 2) :=
  ⟨by decide, by decide⟩

/-- C2 amended: `find_paths` fails with `PointNotFound` carrying the missing
point's identifier whenever `from` has no node (this is checked first); but
when `from` has a node the function never returns a `PointNotFound` error at
all — `to` is not looked up, and a missing `to` surfaces as `NoPathFound`
instead (see the counterexample). -/
theorem C2_point_not_found_only_for_from (pid : T → I) (net : Net T)
    (from_point to_point : T) (fuel : Nat) :
    ((∀ n ∈ net.nodes, n.point_is pid from_point = false) →
      Net.find_paths pid net from_point to_point fuel =
        .err (.PointNotFound (pid from_point))) ∧
    (HasNodeFor pid net from_point →
      ∀ i : I, Net.find_paths pid net from_point to_point fuel ≠
        .err (.PointNotFound i)) := by
  constructor
  · intro habs
    unfold Net.find_paths Net.find_node_or_throws
    cases hf : net.nodes.find? (fun node => node.point_is pid from_point) with
    | some m =>
      have hsat := List.find?_some hf
      rw [habs m (List.mem_of_find?_eq_some hf)] at hsat
      exact Bool.noConfusion hsat
    | none => rfl
  · intro hhas i hcontra
    obtain ⟨n, hok⟩ := find_node_or_throws_isOk pid net from_point hhas
    unfold Net.find_paths at hcontra
    rw [hok] at hcontra
    dsimp only [PathBuilder.new, PathBuilder.point, PathBuilder.build] at hcontra
    exact NetErrors.noConfusion
      (find_crossing_err pid net fuel n to_point ⟨[from_point]⟩ _ hcontra)

/-- Witness for the amended C2: a missing `from` is reported, a present `from`
never yields `PointNotFound`. -/
theorem C2_witness :
    (Net.find_paths (fun x : Nat => x) (⟨[⟨0, []⟩]⟩ : Net Nat) 5 0 3 =
      SearchResult.err (NetErrors.PointNotFound 5)) ∧
    (Net.find_paths (fun x : Nat => x) (⟨[⟨0, []⟩]⟩ : Net Nat) 0 5 3 ≠
      SearchResult.err (NetErrors.PointNotFound 5)) :=
  ⟨(C2_point_not_found_only_for_from (fun x : Nat => x) ⟨[⟨0, []⟩]⟩ 5 0 3).1 (by decide),
    (C2_point_not_found_only_for_from (fun x : Nat => x) ⟨[⟨0, []⟩]⟩ 0 5 3).2
      ⟨⟨0, []⟩, by simp, rfl⟩ 5⟩

/-! ### Claim C4 -/

/-- C4: a candidate connection targeting a point with no node is fatal: the
candidate iteration panics with `PointNotFound` (Rust `find_node_or_panic`),
a panic arising during the iteration is returned unchanged by the aggregation
step of the recursion (never converted into `NoPathFound`), and `find_paths`
surfaces a panic of the search unchanged. -/
theorem C4_missing_candidate_node_is_fatal (pid : T → I) (net : Net T) :
    (∀ (search : Node T → Path T → SearchResult T I) (prev : Path T) (p : T)
        (rest : List T) (acc : List (Path T)),
      (∀ n ∈ net.nodes, n.point_is pid p = false) →
      net.push_all_paths_following pid search prev (p :: rest) acc =
        .panicked (.PointNotFound (pid p))) ∧
    (∀ (fuel : Nat) (from_node : Node T) (to_point : T) (prev : Path T)
        (fs : List T) (e : NetErrors I),
      prev.ends_with pid to_point = false →
      from_node.connected_points_not_in_path pid prev = some fs →
      net.push_all_paths_following pid
        (fun n path =>
          net.find_paths_not_crossing_previous_path pid fuel n to_point path)
        prev fs [] = .panicked e →
      net.find_paths_not_crossing_previous_path pid (fuel + 1) from_node to_point
        prev = .panicked e) ∧
    (∀ (from_point to_point : T) (fuel : Nat) (node_from : Node T) (e : NetErrors I),
      net.find_node_or_throws pid from_point = .ok node_from →
      net.find_paths_not_crossing_previous_path pid fuel node_from to_point
        ⟨[from_point]⟩ = .panicked e →
      Net.find_paths pid net from_point to_point fuel = .panicked e) := by
  refine ⟨?_, ?_, ?_⟩
  · intro search prev p rest acc habs
    rw [push_all_cons]
    cases hf : net.find_node_or_throws pid p with
    | error e =>
      obtain ⟨he, _⟩ := find_node_or_throws_error pid net p e hf
      rw [he]
    | ok m =>
      obtain ⟨hmem, hpt⟩ := find_node_or_throws_ok pid net p m hf
      rw [habs m hmem] at hpt
      exact Bool.noConfusion hpt
  · intro fuel from_node to_point prev fs e hend hfs hpush
    rw [find_crossing_succ pid net fuel _ _ _ hend fs hfs, hpush]
  · intro from_point to_point fuel node_from e hok hrec
    unfold Net.find_paths
    rw [hok]
    dsimp only [PathBuilder.new, PathBuilder.point, PathBuilder.build]
    exact hrec

/-- Witness for C4: the lone node 0 has a dangling connection to 5; pushing the
candidate 5 panics with `PointNotFound 5`. -/
theorem C4_witness :
    Net.push_all_paths_following (fun x : Nat => x) (⟨[⟨0, [⟨5⟩]⟩]⟩ : Net Nat)
      (fun _ _ => SearchResult.outOfFuel) ⟨[0]⟩ [5] [] =
      SearchResult.panicked (NetErrors.PointNotFound 5) :=
  (C4_missing_candidate_node_is_fatal (fun x : Nat => x) ⟨[⟨0, [⟨5⟩]⟩]⟩).1
    (fun _ _ => SearchResult.outOfFuel) ⟨[0]⟩ 5 [] [] (by decide)

/-! ### Lemmas for C3: result shape at the top level -/

/-- An `ok` result of the recursive search is never the empty list. -/
theorem find_crossing_ok_ne_nil (pid : T → I) (net : Net T) (fuel : Nat)
    (from_node : Node T) (to_point : T) (prev : Path T) (ps : List (Path T))
    (h : net.find_paths_not_crossing_previous_path pid fuel from_node to_point prev =
      .ok ps) : ps ≠ [] := by
  cases hend : prev.ends_with pid to_point with
  | true =>
    rw [find_crossing_done pid net _ _ _ _ hend] at h
    rw [← SearchResult.ok.inj h]
    simp
  | false =>
    cases hfs : from_node.connected_points_not_in_path pid prev with
    | none =>
      rw [find_crossing_deadend pid net _ _ _ _ hend hfs] at h
      exact SearchResult.noConfusion h
    | some fs =>
      cases fuel with
      | zero =>
        rw [find_crossing_zero pid net _ _ _ hend fs hfs] at h
        exact SearchResult.noConfusion h
      | succ fuel =>
        rw [find_crossing_succ pid net fuel _ _ _ hend fs hfs] at h
        split at h
        · rename_i paths hpush
          split at h
          · exact SearchResult.noConfusion h
          · rename_i hemp
            obtain rfl : paths = ps := SearchResult.ok.inj h
            intro hnil
            rw [hnil] at hemp
            exact hemp rfl
        · rename_i r hne
          exact absurd h (fun hcon => hne ps hcon)

/-- Generic: the candidate iteration never panics when every candidate has a
node and the recursive call neither panics nor returns a non-`NoPathFound`
error. -/
theorem push_all_no_panic (pid : T → I) (net : Net T)
    (search : Node T → Path T → SearchResult T I) (prev : Path T)
    (hsp : ∀ (n : Node T) (path : Path T) (e : NetErrors I), n ∈ net.nodes →
      search n path ≠ .panicked e)
    (hse : ∀ (n : Node T) (path : Path T) (e : NetErrors I), n ∈ net.nodes →
      search n path = .err e → e = .NoPathFound) :
    ∀ (cs : List T) (acc : List (Path T)) (e : NetErrors I),
      (∀ p ∈ cs, HasNodeFor pid net p) →
      net.push_all_paths_following pid search prev cs acc ≠ .panicked e := by
  intro cs
  induction cs with
  | nil =>
    intro acc e _ h
    rw [push_all_nil] at h
    exact SearchResult.noConfusion h
  | cons p rest ih =>
    intro acc e hcs h
    have hrest : ∀ x ∈ rest, HasNodeFor pid net x :=
      fun x hx => hcs x (List.mem_cons_of_mem _ hx)
    rw [push_all_cons] at h
    split at h
    · rename_i e0 hf
      obtain ⟨_, hall⟩ := find_node_or_throws_error pid net p e0 hf
      obtain ⟨n, hn, hpt⟩ := hcs p (List.mem_cons_self _ _)
      rw [hall n hn] at hpt
      exact Bool.noConfusion hpt
    · rename_i origin hf
      have hmem := (find_node_or_throws_ok pid net p origin hf).1
      split at h
      · exact ih _ _ hrest h
      · exact ih _ _ hrest h
      · rename_i e0 hne0 hsr
        exact absurd (hse origin _ e0 hmem hsr) hne0
      · rename_i e0 hsr
        exact hsp origin _ e0 hmem hsr
      · exact SearchResult.noConfusion h

/-- On a closed net the recursive search never panics. -/
theorem find_crossing_no_panic (pid : T → I) (net : Net T)
    (hclosed : ClosedNet pid net) :
    ∀ (fuel : Nat) (from_node : Node T) (to_point : T) (prev : Path T)
      (e : NetErrors I), from_node ∈ net.nodes →
      net.find_paths_not_crossing_previous_path pid fuel from_node to_point prev ≠
        .panicked e := by
  intro fuel
  induction fuel with
  | zero =>
    intro from_node to_point prev e _ h
    cases hend : prev.ends_with pid to_point with
    | true =>
      rw [find_crossing_done pid net _ _ _ _ hend] at h
      exact SearchResult.noConfusion h
    | false =>
      cases hfs : from_node.connected_points_not_in_path pid prev with
      | none =>
        rw [find_crossing_deadend pid net _ _ _ _ hend hfs] at h
        exact SearchResult.noConfusion h
      | some fs =>
        rw [find_crossing_zero pid net _ _ _ hend fs hfs] at h
        exact SearchResult.noConfusion h
  | succ fuel ih =>
    intro from_node to_point prev e hmem h
    cases hend : prev.ends_with pid to_point with
    | true =>
      rw [find_crossing_done pid net _ _ _ _ hend] at h
      exact SearchResult.noConfusion h
    | false =>
      cases hfs : from_node.connected_points_not_in_path pid prev with
      | none =>
        rw [find_crossing_deadend pid net _ _ _ _ hend hfs] at h
        exact SearchResult.noConfusion h
      | some fs =>
        rw [find_crossing_succ pid net fuel _ _ _ hend fs hfs] at h
        have hfs_nodes : ∀ p ∈ fs, HasNodeFor pid net p := by
          intro p hp
          have hconn :=
            (connected_points_not_in_path_mem pid from_node prev fs hfs p hp).2
          unfold Node.is_connected_to at hconn
          obtain ⟨c, hc, hct⟩ := List.any_eq_true.mp hconn
          obtain ⟨m, hm, hmpt⟩ := hclosed from_node hmem c hc
          refine ⟨m, hm, ?_⟩
          have h1 : pid m.point = pid c.target :=
            of_decide_eq_true (show decide (pid m.point = pid c.target) = true from hmpt)
          have h2 : pid c.target = pid p :=
            of_decide_eq_true (show decide (pid c.target = pid p) = true from hct)
          exact decide_eq_true (h1.trans h2)
        split at h
        · split at h
          · exact SearchResult.noConfusion h
          · exact SearchResult.noConfusion h
        · exact push_all_no_panic pid net _ prev
            (fun n path e0 hn => ih n to_point path e0 hn)
            (fun n path e0 _ hs => find_crossing_err pid net fuel n to_point path e0 hs)
            fs [] e hfs_nodes h

/-- Generic: the candidate iteration never runs out of fuel when the recursive
call has enough fuel for every strictly longer path. -/
theorem push_all_no_fuel_out (pid : T → I) (net : Net T)
    (search : Node T → Path T → SearchResult T I) (prev : Path T) (b : Nat)
    (hs : ∀ (n : Node T) (path : Path T), n ∈ net.nodes →
      remainingNodes pid net path < b → search n path ≠ .outOfFuel) :
    ∀ (cs : List T) (acc : List (Path T)),
      remainingNodes pid net prev ≤ b →
      (∀ p ∈ cs, prev.do_not_contains pid p = true) →
      net.push_all_paths_following pid search prev cs acc ≠ .outOfFuel := by
  intro cs
  induction cs with
  | nil =>
    intro acc _ _ h
    rw [push_all_nil] at h
    exact SearchResult.noConfusion h
  | cons p rest ih =>
    intro acc hb hcs h
    have hrest : ∀ x ∈ rest, prev.do_not_contains pid x = true :=
      fun x hx => hcs x (List.mem_cons_of_mem _ hx)
    rw [push_all_cons] at h
    split at h
    · exact SearchResult.noConfusion h
    · rename_i origin hf
      obtain ⟨hmem, hpt⟩ := find_node_or_throws_ok pid net p origin hf
      split at h
      · exact ih _ hb hrest h
      · exact ih _ hb hrest h
      · exact SearchResult.noConfusion h
      · exact SearchResult.noConfusion h
      · rename_i hsr
        have hpe : pid origin.point = pid p :=
          of_decide_eq_true (show decide (pid origin.point = pid p) = true from hpt)
        have hprevdnc : ∀ a ∈ prev.points, pid a ≠ pid p :=
          (do_not_contains_spec pid prev p).mp (hcs p (List.mem_cons_self _ _))
        have hlt : remainingNodes pid net (prev.with_point_at_the_end p) <
            remainingNodes pid net prev := by
          unfold remainingNodes
          refine length_filter_lt_of_witness net.nodes _ _ ?_ origin hmem ?_ ?_
          · intro x _ hx
            rw [do_not_contains_spec] at hx ⊢
            intro a ha
            exact hx a (by rw [with_point_points]; exact List.mem_append_left _ ha)
          · rw [do_not_contains_spec]
            intro a ha hcon
            exact hprevdnc a ha (hcon.trans hpe)
          · cases hval : (prev.with_point_at_the_end p).do_not_contains pid
                origin.point with
            | false => rfl
            | true =>
              exfalso
              have hpmem : p ∈ (prev.with_point_at_the_end p).points := by
                rw [with_point_points]
                exact List.mem_append_right _ (List.mem_singleton.mpr rfl)
              exact (do_not_contains_spec pid _ _).mp hval p hpmem hpe.symm
        exact hs origin _ hmem (lt_of_lt_of_le hlt hb) hsr

/-- With fuel exceeding the number of nodes off the current path, the search
never runs out of fuel. -/
theorem find_crossing_no_fuel_out (pid : T → I) (net : Net T) :
    ∀ (fuel : Nat) (from_node : Node T) (to_point : T) (prev : Path T),
      remainingNodes pid net prev < fuel →
      net.find_paths_not_crossing_previous_path pid fuel from_node to_point prev ≠
        .outOfFuel := by
  intro fuel
  induction fuel with
  | zero =>
    intro from_node to_point prev hlt
    exact absurd hlt (Nat.not_lt_zero _)
  | succ fuel ih =>
    intro from_node to_point prev hlt h
    cases hend : prev.ends_with pid to_point with
    | true =>
      rw [find_crossing_done pid net _ _ _ _ hend] at h
      exact SearchResult.noConfusion h
    | false =>
      cases hfs : from_node.connected_points_not_in_path pid prev with
      | none =>
        rw [find_crossing_deadend pid net _ _ _ _ hend hfs] at h
        exact SearchResult.noConfusion h
      | some fs =>
        rw [find_crossing_succ pid net fuel _ _ _ hend fs hfs] at h
        have hcs : ∀ p ∈ fs, prev.do_not_contains pid p = true :=
          fun p hp => (connected_points_not_in_path_mem pid from_node prev fs hfs p hp).1
        split at h
        · split at h
          · exact SearchResult.noConfusion h
          · exact SearchResult.noConfusion h
        · exact push_all_no_fuel_out pid net _ prev fuel
            (fun n path _ hr => ih n to_point path hr)
            fs [] (Nat.lt_succ_iff.mp hlt) hcs h

/-! ### Claim C3 -/

/-- C3: on a structurally consistent net in which both endpoints have nodes
(and with enough fuel for the embedding's counter), the top-level result is
always either `NoPathFound` or an Ok carrying a non-empty list — never an
empty Ok list (the per-branch `NoPathFound` signals are absorbed by the parent
calls); and if no simple path connects the two points, the result is exactly
the `NoPathFound` error. -/
theorem C3_no_path_found_iff_exhausted (pid : T → I) (net : Net T)
    (from_point to_point : T) (fuel : Nat)
    (hfrom : HasNodeFor pid net from_point) (_hto : HasNodeFor pid net to_point)
    (hclosed : ClosedNet pid net) (hfuel : net.nodes.length < fuel) :
    (Net.find_paths pid net from_point to_point fuel = .err .NoPathFound ∨
      ∃ ps, Net.find_paths pid net from_point to_point fuel = .ok ps ∧ ps ≠ []) ∧
    ((¬ ∃ l, ConnectsSimply pid net from_point to_point l) →
      Net.find_paths pid net from_point to_point fuel = .err .NoPathFound) := by
  obtain ⟨n, hok⟩ := find_node_or_throws_isOk pid net from_point hfrom
  obtain ⟨hmem, hpt⟩ := find_node_or_throws_ok pid net from_point n hok
  have hfind : Net.find_paths pid net from_point to_point fuel =
      net.find_paths_not_crossing_previous_path pid fuel n to_point
        ⟨[from_point]⟩ := by
    unfold Net.find_paths
    rw [hok]
    rfl
  have hrem : remainingNodes pid net (⟨[from_point]⟩ : Path T) < fuel :=
    lt_of_le_of_lt (List.length_filter_le _ _) hfuel
  constructor
  · cases hres : net.find_paths_not_crossing_previous_path pid fuel n to_point
        ⟨[from_point]⟩ with
    | ok ps =>
      exact Or.inr ⟨ps, by rw [hfind, hres],
        find_crossing_ok_ne_nil pid net fuel n to_point _ ps hres⟩
    | err e =>
      rw [find_crossing_err pid net fuel n to_point _ e hres] at hres
      exact Or.inl (by rw [hfind, hres])
    | panicked e =>
      exact absurd hres (find_crossing_no_panic pid net hclosed fuel n to_point _ e hmem)
    | outOfFuel =>
      exact absurd hres (find_crossing_no_fuel_out pid net fuel n to_point _ hrem)
  · intro hnopath
    cases hres : net.find_paths_not_crossing_previous_path pid fuel n to_point
        ⟨[from_point]⟩ with
    | ok ps =>
      exfalso
      have hne := find_crossing_ok_ne_nil pid net fuel n to_point _ ps hres
      obtain ⟨q, hq⟩ := List.exists_mem_of_ne_nil ps hne
      have hend : (⟨[from_point]⟩ : Path T).ends_with pid n.point = true := by
        rw [ends_with_spec]
        exact ⟨from_point, by simp,
          (of_decide_eq_true
            (show decide (pid n.point = pid from_point) = true from hpt)).symm⟩
      obtain ⟨⟨ext, hext⟩, hqe, hqn, hqc⟩ :=
        find_crossing_sound pid net fuel n to_point ⟨[from_point]⟩ ps hres hmem hend
          (List.pairwise_singleton _ _) (List.chain'_singleton _) q hq
      obtain ⟨lst, hlast, hlid⟩ := (ends_with_spec pid q to_point).mp hqe
      apply hnopath
      refine ⟨q.points, ⟨from_point, ?_, decide_eq_true rfl⟩,
        ⟨lst, hlast, decide_eq_true hlid⟩, hqn, hqc⟩
      rw [hext]
      rfl
    | err e =>
      rw [find_crossing_err pid net fuel n to_point _ e hres] at hres
      rw [hfind, hres]
    | panicked e =>
      exact absurd hres (find_crossing_no_panic pid net hclosed fuel n to_point _ e hmem)
    | outOfFuel =>
      exact absurd hres (find_crossing_no_fuel_out pid net fuel n to_point _ hrem)

/-- Witness for C3 on the net of two isolated nodes. -/
theorem C3_witness :
    Net.find_paths (fun x : Nat => x) (⟨[⟨0, []⟩, ⟨1, []⟩]⟩ : Net Nat) 0 1 3 =
        SearchResult.err NetErrors.NoPathFound ∨
      ∃ ps, Net.find_paths (fun x : Nat => x) (⟨[⟨0, []⟩, ⟨1, []⟩]⟩ : Net Nat) 0 1 3 =
        SearchResult.ok ps ∧ ps ≠ [] :=
  (C3_no_path_found_iff_exhausted (fun x : Nat => x) ⟨[⟨0, []⟩, ⟨1, []⟩]⟩ 0 1 3
    ⟨⟨0, []⟩, by simp, rfl⟩ ⟨⟨1, []⟩, by simp, rfl⟩
    (by unfold ClosedNet; intro m hm c hc; simp at hm; rcases hm with h0 | h1
        · rw [h0] at hc; cases hc
        · rw [h1] at hc; cases hc)
    (by decide)).1

/-! ### Claim C6 -/

/-- Adding one connected point preserves distinctness of the accumulated
connection identifiers. -/
theorem connected_point_preserves_nodup (pid : T → I) (b : NodeBuilder T) (p : T)
    (hb : NodupIds pid (b.connected_points.getD [])) :
    NodupIds pid ((b.connected_point pid p).connected_points.getD []) := by
  unfold NodeBuilder.connected_point
  split
  · exact hb
  · rename_i hni
    split
    · rename_i c hc
      have hnotin : ∀ a ∈ c, pid a ≠ pid p := by
        intro a ha hcon
        apply hni
        unfold NodeBuilder.node_is_connected_to
        rw [hc]
        exact List.any_eq_true.mpr ⟨a, ha, decide_eq_true hcon⟩
      rw [hc] at hb
      simp only [Option.getD] at hb ⊢
      exact nodupIds_append_singleton pid hb hnotin
    · simp only [Option.getD]
      exact List.pairwise_singleton _ _

/-- Adding a batch of connected points preserves distinctness of the
accumulated connection identifiers. -/
theorem add_connected_points_preserves_nodup (pid : T → I) (ps : List T) :
    ∀ (b : NodeBuilder T), NodupIds pid (b.connected_points.getD []) →
      NodupIds pid ((b.add_connected_points pid ps).connected_points.getD []) := by
  induction ps with
  | nil => intro b hb; exact hb
  | cons p rest ih =>
    intro b hb
    exact ih _ (connected_point_preserves_nodup pid b p hb)

/-- Every builder state reachable through the public operations has pairwise
distinct connection identifiers. -/
theorem reached_nodup (pid : T → I) (b : NodeBuilder T) (h : Reached pid b) :
    NodupIds pid (b.connected_points.getD []) := by
  induction h with
  | new => exact List.Pairwise.nil
  | set_point b p _ ih => exact ih
  | connected_point b p _ ih => exact connected_point_preserves_nodup pid b p ih
  | add_connected_points b ps _ ih => exact add_connected_points_preserves_nodup pid ps b ih

/-- C6: a node produced by `NodeBuilder` holds at most one connection per
distinct target identifier: adding a connection whose target identifier is
already present is a silent no-op, adding the same point twice yields the same
builder state as adding it once, a genuinely new point is appended after the
previously accumulated connections (first-seen insertion order), and the
connections of any node built from a reachable builder state have pairwise
distinct target identifiers. -/
theorem C6_node_builder_connections_deduped (pid : T → I) :
    (∀ (b : NodeBuilder T) (p : T),
      b.node_is_connected_to pid p = true → b.connected_point pid p = b) ∧
    (∀ (b : NodeBuilder T) (p : T),
      b.node_is_connected_to pid p = false →
      (b.connected_point pid p).connected_points =
        some (b.connected_points.getD [] ++ [p])) ∧
    (∀ (b : NodeBuilder T) (p : T),
      (b.connected_point pid p).connected_point pid p = b.connected_point pid p) ∧
    (∀ (b : NodeBuilder T) (n : Node T), Reached pid b →
      NodeBuilder.build pid b = .ok n →
      NodupIds pid (n.connections.map Connection.target)) := by
  have part1 : ∀ (b : NodeBuilder T) (p : T),
      b.node_is_connected_to pid p = true → b.connected_point pid p = b := by
    intro b p h
    unfold NodeBuilder.connected_point
    rw [h]
    rfl
  have part2 : ∀ (b : NodeBuilder T) (p : T),
      b.node_is_connected_to pid p = false →
      (b.connected_point pid p).connected_points =
        some (b.connected_points.getD [] ++ [p]) := by
    intro b p h
    unfold NodeBuilder.connected_point
    rw [h]
    cases hc : b.connected_points <;> simp
  refine ⟨part1, part2, ?_, ?_⟩
  · intro b p
    cases h : b.node_is_connected_to pid p with
    | true => rw [part1 b p h, part1 b p h]
    | false =>
      apply part1
      unfold NodeBuilder.node_is_connected_to
      rw [part2 b p h]
      exact List.any_eq_true.mpr
        ⟨p, List.mem_append_right _ (List.mem_singleton.mpr rfl), decide_eq_true rfl⟩
  · intro b n hreach hbuild
    have hnodup := reached_nodup pid b hreach
    unfold NodeBuilder.build at hbuild
    split at hbuild
    · exact Except.noConfusion hbuild
    · split at hbuild
      · exact Except.noConfusion hbuild
      · obtain rfl : _ = n := Except.ok.inj hbuild
        dsimp only []
        rw [List.map_map]
        have hfun : (Connection.target ∘ fun connected_point : T =>
            (⟨connected_point⟩ : Connection T)) = fun x => x := rfl
        rw [hfun, List.map_id']
        exact hnodup

/-- Witness for C6: a duplicate add is a no-op at a concrete builder state, and
a concretely built node has distinct connection targets. -/
theorem C6_witness :
    (NodeBuilder.connected_point (fun x : Nat => x) ⟨some 0, some [1]⟩ 1 =
      (⟨some 0, some [1]⟩ : NodeBuilder Nat)) ∧
    NodupIds (fun x : Nat => x)
      ((⟨0, [⟨1⟩]⟩ : Node Nat).connections.map Connection.target) :=
  ⟨(C6_node_builder_connections_deduped (fun x : Nat => x)).1 ⟨some 0, some [1]⟩ 1
      (by decide),
    (C6_node_builder_connections_deduped (fun x : Nat => x)).2.2.2
      ((NodeBuilder.new.set_point 0).connected_point (fun x : Nat => x) 1)
      ⟨0, [⟨1⟩]⟩
      (Reached.connected_point _ 1 (Reached.set_point _ 0 Reached.new)) rfl⟩

end NetPF
